import Mathlib

/-!
Verification of the nvim-config compiler (src/main.rs): the flag-key
grammar parser, the key-binding renderer, the autocommand renderer and the
bucket aggregation pipeline are embedded shallowly below; the theorems at
the end of the file settle the behavioural claims about them.
Strings are modelled by Lean String; Rust HashMap fields are modelled by
association lists, making the (otherwise random) enumeration order an
explicit parameter of the embedding.
-/

namespace NvimConfig

/-- The single-quote character, kept as a named constant. -/
def quoteChar : Char := Char.ofNat 39

/-- A one-character string holding a single quote. -/
def sq : String := String.singleton quoteChar

/-- The six flags of the `MapFlag` bitflags enum in src/main.rs. -/
inductive MapFlag
  | Insert
  | Normal
  | Visual
  | Leader
  | Command
  | Recursive
deriving DecidableEq, Repr

/-- The `MapFlags` struct: parsed result of a flag-key string. -/
structure MapFlags where
  flags : List MapFlag
  file_type : Option String
  label : Option String
deriving DecidableEq, Repr

/-- The three `bail!` failure cases of `MapFlags::from_str`. -/
inductive ParseErr
  | duplicateFileType
  | missingFileTypeSource
  | unsupportedFlag (c : Char)
deriving DecidableEq, Repr

/-- Split a character list at the first occurrence of `sep`, mirroring
Rust `str::split_once`. -/
def splitOnceChar (sep : Char) : List Char → Option (List Char × List Char)
  | [] => none
  | c :: rest =>
    if c = sep then some ([], rest)
    else
      match splitOnceChar sep rest with
      | some (l, r) => some (c :: l, r)
      | none => none

/-- Rust `s.split_once("_")` on strings. -/
def split_once (s : String) : Option (String × String) :=
  match splitOnceChar '_' s.data with
  | some (l, r) => some (⟨l⟩, ⟨r⟩)
  | none => none

/-- The fixed flag-character table of `MapFlags::from_str` (all
characters other than the file-type trigger `f`). -/
def flagOf (c : Char) : Option MapFlag :=
  if c = 'i' then some MapFlag.Insert
  else if c = 'n' then some MapFlag.Normal
  else if c = 'v' then some MapFlag.Visual
  else if c = 'l' then some MapFlag.Leader
  else if c = 'c' then some MapFlag.Command
  else if c = 'r' then some MapFlag.Recursive
  else none

/-- `HashSet::insert` on the flag set (idempotent set insertion). -/
def insertFlag (l : List MapFlag) (fl : MapFlag) : List MapFlag :=
  if l.contains fl then l else l ++ [fl]

/-- The character loop of `MapFlags::from_str`, with the running
`(flags, file_type, label)` state carried as a `MapFlags` value. -/
def parseFlagChars : List Char → MapFlags → Except ParseErr MapFlags
  | [], st => .ok st
  | c :: cs, st =>
    if c = 'f' then
      match st.label, st.file_type with
      | some l, none =>
        match split_once l with
        | some (ft, l2) => parseFlagChars cs ⟨st.flags, some ft, some l2⟩
        | none => parseFlagChars cs ⟨st.flags, some l, none⟩
      | _, some _ => .error .duplicateFileType
      | none, none => .error .missingFileTypeSource
    else
      match flagOf c with
      | some fl => parseFlagChars cs ⟨insertFlag st.flags fl, st.file_type, st.label⟩
      | none => .error (.unsupportedFlag c)

/-- `MapFlags::from_str`: split once on the separator, then run the flag
character loop over the ASCII-lowercased flag part. -/
def MapFlags.from_str (s : String) : Except ParseErr MapFlags :=
  match split_once s with
  | some (s1, label) => parseFlagChars (s1.data.map Char.toLower) ⟨[], none, some label⟩
  | none => parseFlagChars (s.data.map Char.toLower) ⟨[], none, none⟩

/-- The file-type part produced when the `f` flag consumes a label
remainder: left part of a further split, or the whole remainder. -/
def splitFT (rest : String) : String :=
  match split_once rest with
  | some (ft, _) => ft
  | none => rest

/-- The label part left over after the `f` flag consumes a label
remainder: right part of a further split, or absent. -/
def splitLabel (rest : String) : Option String :=
  match split_once rest with
  | some (_, l) => some l
  | none => none

/-- `binding.replace('|', "\\|")` at the character level. -/
def escapePipesL : List Char → List Char
  | [] => []
  | c :: rest => if c = '|' then '\\' :: '|' :: escapePipesL rest else c :: escapePipesL rest

/-- `binding.replace('|', "\\|")` on strings. -/
def escapePipes (s : String) : String := ⟨escapePipesL s.data⟩

/-- `cmd.replace('\x27', "\\\x27")` at the character level. -/
def escapeQuotesL : List Char → List Char
  | [] => []
  | c :: rest =>
    if c = quoteChar then '\\' :: quoteChar :: escapeQuotesL rest else c :: escapeQuotesL rest

/-- `cmd.replace('\x27', "\\\x27")` on strings. -/
def escapeQuotes (s : String) : String := ⟨escapeQuotesL s.data⟩

/-- Rust `char::is_ascii_whitespace`. -/
def isAsciiWhitespace (c : Char) : Bool :=
  c == ' ' || c == '\t' || c == '\n' || c == Char.ofNat 12 || c == '\r'

/-- `key.split_ascii_whitespace().collect::<String>()`: dropping every
ASCII whitespace character. -/
def collapseWhitespace (s : String) : String :=
  ⟨s.data.filter (fun c => !isAsciiWhitespace c)⟩

/-- Rendering of one `(key, binding)` pair in `main`: leader prefixing,
pipe escaping, command wrapping, whitespace collapsing, and the i/n/v
mode fan-out, in source order. -/
def renderKeyBinding (flags : List MapFlag) (key binding : String) : List String :=
  let cmd := if flags.contains MapFlag.Recursive then "map" else "noremap"
  let key2 := if flags.contains MapFlag.Leader then "<LEADER>" ++ key else key
  let binding2 := escapePipes binding
  let binding3 := if flags.contains MapFlag.Command then "<CMD>" ++ binding2 ++ "<CR>" else binding2
  let line := cmd ++ " <silent> " ++ collapseWhitespace key2 ++ " " ++ binding3
  (if flags.contains MapFlag.Insert then ["i" ++ line] else []) ++
    ((if flags.contains MapFlag.Normal then ["n" ++ line] else []) ++
      (if flags.contains MapFlag.Visual then ["v" ++ line] else []))

/-- The untagged `MaybePrefixedMapping` enum; the inner HashMap is
modelled as an association list in enumeration order. -/
inductive MaybePrefixedMapping
  | Mapping (binding : String)
  | PrefixedMappings (bindings : List (String × String))

/-- The `kbs` expansion loop of `main`: a plain mapping stays, a group
expands to one `(key ++ suffix, binding)` pair per entry. -/
def expandBindings : List (String × MaybePrefixedMapping) → List (String × String)
  | [] => []
  | (key, .Mapping b) :: rest => (key, b) :: expandBindings rest
  | (key, .PrefixedMappings m) :: rest =>
    m.map (fun p => (key ++ p.1, p.2)) ++ expandBindings rest

/-- The `AutoCommand` struct; the `event` HashMap is modelled as an
association list in enumeration order. -/
structure AutoCommand where
  triggers : List String
  cmd : List String
  lua : List String
  matching : Option String
  event : List (String × String)
  silent : Bool
  file_type : Option String
deriving DecidableEq, Repr

/-- Rust `Vec::join(sep)`. -/
def joinSep (sep : String) : List String → String
  | [] => ""
  | [x] => x
  | x :: rest => x ++ sep ++ joinSep sep rest

/-- One event-condition clause: `v:event.{key} is \x27{value}\x27`. -/
def autoClause (p : String × String) : String :=
  "v:event." ++ p.1 ++ " is " ++ sq ++ p.2 ++ sq

/-- The ` && `-joined condition of an autocommand's event map. -/
def autoCondition (event : List (String × String)) : String :=
  joinSep " && " (event.map autoClause)

/-- The resolved match pattern: explicit `matching`, else `<buffer>` when
a file type is set, else `*`. -/
def autoMatching (a : AutoCommand) : String :=
  a.matching.getD (if a.file_type.isSome then "<buffer>" else "*")

/-- The silence token. -/
def autoSilent (silent : Bool) : String := if silent then "silent!" else ""

/-- The statement sources: `cmd` entries then `lua` entries wrapped as
lua invocations, in that concatenation order. -/
def autoStatements (a : AutoCommand) : List String :=
  a.cmd ++ a.lua.map (fun v => "lua " ++ v)

/-- Rendering of one `AutoCommand` in `main`: one line per statement,
unconditional when the condition string is empty, otherwise wrapped in
`if ... | execute ... | endif` with single quotes escaped. -/
def renderAutoCommand (a : AutoCommand) : List String :=
  let triggers := joinSep "," a.triggers
  let matching := autoMatching a
  let silentTok := autoSilent a.silent
  let condition := autoCondition a.event
  (autoStatements a).map fun c =>
    if condition = "" then
      "autocmd " ++ triggers ++ " " ++ matching ++ " " ++ silentTok ++ " " ++ c
    else
      "autocmd " ++ triggers ++ " " ++ matching ++ " " ++ silentTok ++ " if " ++ condition ++
        " | execute " ++ sq ++ escapeQuotes c ++ sq ++ " | endif"

/-- The untagged `Value` enum. -/
inductive Value
  | Int (i : Int)
  | Str (s : String)
  | Bool (b : Bool)

/-- `Display for Value`. -/
def Value.render : Value → String
  | .Int v => toString v
  | .Str v => "\"" ++ v ++ "\""
  | .Bool true => "yes"
  | .Bool false => "no"

/-- One configuration document; every HashMap field is modelled as an
association list in enumeration order. -/
structure Config where
  auto_commands : List AutoCommand
  keys : List (MapFlags × List (String × MaybePrefixedMapping))
  set : List String
  set_value : List (String × Value)
  letv : List (String × Value)

/-- The bucket map `vimscript: HashMap<Option<String>, Vec<String>>`,
observed through the line sequence held at each key. -/
def Buckets : Type := Option String → List String

/-- The bucket map before any line is pushed. -/
def emptyBuckets : Buckets := fun _ => []

/-- `mut_or_default(&mut vimscript, &key).push(line)`. -/
def pushLine (b : Buckets) (key : Option String) (line : String) : Buckets :=
  fun k => if k = key then b k ++ [line] else b k

/-- Pushing a list of lines one by one into one bucket. -/
def pushLines (b : Buckets) (key : Option String) (lines : List String) : Buckets :=
  lines.foldl (fun b l => pushLine b key l) b

/-- The per-document header: source-file comment and Keybindings marker,
pushed to the global bucket. -/
def processHeader (b : Buckets) (filename : String) : Buckets :=
  pushLine (pushLine b none ("\n\n\" File: " ++ filename)) none "\n\" Keybindings:"

/-- Processing of one flag-key group: optional label comment, then the
rendered lines of each expanded binding, all pushed to the group's
file-type bucket. -/
def processKeyGroup (b : Buckets) (mf : MapFlags) (k : List (String × MaybePrefixedMapping)) :
    Buckets :=
  let b :=
    match mf.label with
    | some l => pushLine b mf.file_type ("\" " ++ l)
    | none => b
  (expandBindings k).foldl
    (fun b kb => pushLines b mf.file_type (renderKeyBinding mf.flags kb.1 kb.2)) b

/-- The `config.keys` loop. -/
def processKeys (b : Buckets) (ks : List (MapFlags × List (String × MaybePrefixedMapping))) :
    Buckets :=
  ks.foldl (fun b g => processKeyGroup b g.1 g.2) b

/-- The `config.auto_commands` loop: every rendered statement is pushed
to the global (`none`) bucket. -/
def processAutoCommands (b : Buckets) (as : List AutoCommand) : Buckets :=
  as.foldl (fun b a => pushLines b none (renderAutoCommand a)) b

/-- The `set`, `set_value` and `let` loops, in source order, all pushed
to the global bucket. -/
def processSets (b : Buckets) (c : Config) : Buckets :=
  let b := c.set.foldl (fun b s => pushLine b none ("set " ++ s)) b
  let b := c.set_value.foldl (fun b p => pushLine b none ("set " ++ p.1 ++ "=" ++ p.2.render)) b
  c.letv.foldl (fun b p => pushLine b none ("let " ++ p.1 ++ "=" ++ p.2.render)) b

/-- The whole per-document body of the main loop, in source order:
header, key groups, autocommands, settings. -/
def processConfig (b : Buckets) (c : Config) (filename : String) : Buckets :=
  processSets (processAutoCommands (processKeys (processHeader b filename) c.keys)
    c.auto_commands) c

/-- The outer loop over all loaded documents, in load order. -/
def processConfigs (b : Buckets) : List (Config × String) → Buckets
  | [] => b
  | (c, f) :: rest => processConfigs (processConfig b c f) rest

/-- The emitted payload of one bucket: its lines joined by line breaks. -/
def bucketPayload (b : Buckets) (k : Option String) : String :=
  joinSep "\n" (b k)


/-- Scan state: given the previous character, check that every pipe in
the remaining characters is immediately preceded by a backslash. -/
def pipesOkAux (prev : Char) : List Char → Bool
  | [] => true
  | c :: rest => (!(c == '|') || (prev == '\\')) && pipesOkAux c rest

/-- Every pipe character of the list is immediately preceded by a
backslash (so every pipe appears escaped). -/
def pipesOk : List Char → Bool
  | [] => true
  | c :: rest => !(c == '|') && pipesOkAux c rest

/-- Scan state: given the previous character, check that every single
quote in the remaining characters is immediately preceded by a
backslash. -/
def quotesOkAux (prev : Char) : List Char → Bool
  | [] => true
  | c :: rest => (!(c == quoteChar) || (prev == '\\')) && quotesOkAux c rest

/-- Every single quote of the list is immediately preceded by a
backslash (so every quote appears escaped). -/
def quotesOk : List Char → Bool
  | [] => true
  | c :: rest => !(c == quoteChar) && quotesOkAux c rest

/-- Fixture: an autocommand whose command text holds a literal pipe. -/
def autoPipeEx : AutoCommand :=
  ⟨["BufWrite"], ["a|b"], [], none, [], false, none⟩

/-- Fixture: an autocommand with a two-entry event map. -/
def autoEvEx1 : AutoCommand :=
  ⟨["E"], ["x"], [], none, [("a", "1"), ("b", "2")], false, none⟩

/-- Fixture: the same autocommand with the same event map enumerated in
the opposite order. -/
def autoEvEx2 : AutoCommand :=
  ⟨["E"], ["x"], [], none, [("b", "2"), ("a", "1")], false, none⟩

theorem data_append (a b : String) : (a ++ b).data = a.data ++ b.data := rfl

theorem append_ne_empty (a b : String) (h : a ≠ "") : a ++ b ≠ "" := by
  intro hab
  apply h
  have hd : (a ++ b).data = [] := by rw [hab]
  rw [data_append] at hd
  exact String.ext (List.append_eq_nil.mp hd).1

theorem pushLine_apply (b : Buckets) (key : Option String) (l : String) (k : Option String) :
    pushLine b key l k = if k = key then b k ++ [l] else b k := rfl

theorem pushLines_apply (key : Option String) (ls : List String) (b : Buckets)
    (k : Option String) :
    pushLines b key ls k = if k = key then b k ++ ls else b k := by
  induction ls generalizing b with
  | nil => by_cases hk : k = key <;> simp [pushLines, hk]
  | cons l ls ih =>
    show pushLines (pushLine b key l) key ls k = _
    rw [ih, pushLine_apply]
    by_cases hk : k = key <;> simp [hk]

theorem pushLine_shift (key : Option String) (l : String) (b : Buckets) (k : Option String) :
    pushLine b key l k = b k ++ pushLine emptyBuckets key l k := by
  rw [pushLine_apply, pushLine_apply]
  by_cases hk : k = key <;> simp [hk, emptyBuckets]

theorem pushLines_shift (key : Option String) (ls : List String) (b : Buckets)
    (k : Option String) :
    pushLines b key ls k = b k ++ pushLines emptyBuckets key ls k := by
  rw [pushLines_apply, pushLines_apply]
  by_cases hk : k = key <;> simp [hk, emptyBuckets]

theorem foldl_shift {α : Type} (step : Buckets → α → Buckets)
    (h : ∀ x b k, step b x k = b k ++ step emptyBuckets x k) :
    ∀ (l : List α) (b : Buckets) (k : Option String),
      l.foldl step b k = b k ++ l.foldl step emptyBuckets k := by
  intro l
  induction l with
  | nil => intro b k; simp [emptyBuckets]
  | cons x l ih =>
    intro b k
    show l.foldl step (step b x) k = b k ++ l.foldl step (step emptyBuckets x) k
    rw [ih (step b x) k, ih (step emptyBuckets x) k, h x b k, List.append_assoc]

theorem processHeader_shift (f : String) (b : Buckets) (k : Option String) :
    processHeader b f k = b k ++ processHeader emptyBuckets f k := by
  by_cases hk : k = (none : Option String) <;>
    simp [processHeader, pushLine_apply, emptyBuckets, hk]

theorem processKeyGroup_shift (mf : MapFlags) (ks : List (String × MaybePrefixedMapping))
    (b : Buckets) (k : Option String) :
    processKeyGroup b mf ks k = b k ++ processKeyGroup emptyBuckets mf ks k := by
  obtain ⟨fl, ft, lb⟩ := mf
  have hfold := @foldl_shift (String × String)
    (fun b kb => pushLines b ft (renderKeyBinding fl kb.1 kb.2))
    (fun kb b k => pushLines_shift ft (renderKeyBinding fl kb.1 kb.2) b k) (expandBindings ks)
  cases lb with
  | none => exact hfold b k
  | some l =>
    simp only [processKeyGroup]
    rw [hfold (pushLine b ft ("\" " ++ l)) k, pushLine_shift ft ("\" " ++ l) b k,
      hfold (pushLine emptyBuckets ft ("\" " ++ l)) k, List.append_assoc]

theorem processKeys_shift (ks : List (MapFlags × List (String × MaybePrefixedMapping)))
    (b : Buckets) (k : Option String) :
    processKeys b ks k = b k ++ processKeys emptyBuckets ks k :=
  @foldl_shift (MapFlags × List (String × MaybePrefixedMapping))
    (fun b g => processKeyGroup b g.1 g.2)
    (fun g b k => processKeyGroup_shift g.1 g.2 b k) ks b k

theorem processAutoCommands_shift (as : List AutoCommand) (b : Buckets) (k : Option String) :
    processAutoCommands b as k = b k ++ processAutoCommands emptyBuckets as k :=
  @foldl_shift AutoCommand (fun b a => pushLines b none (renderAutoCommand a))
    (fun a b k => pushLines_shift none (renderAutoCommand a) b k) as b k

theorem processSets_shift (c : Config) (b : Buckets) (k : Option String) :
    processSets b c k = b k ++ processSets emptyBuckets c k := by
  have h1 := @foldl_shift String (fun b s => pushLine b none ("set " ++ s))
    (fun s b k => pushLine_shift none ("set " ++ s) b k) c.set
  have h2 := @foldl_shift (String × Value)
    (fun b p => pushLine b none ("set " ++ p.1 ++ "=" ++ p.2.render))
    (fun p b k => pushLine_shift none ("set " ++ p.1 ++ "=" ++ p.2.render) b k) c.set_value
  have h3 := @foldl_shift (String × Value)
    (fun b p => pushLine b none ("let " ++ p.1 ++ "=" ++ p.2.render))
    (fun p b k => pushLine_shift none ("let " ++ p.1 ++ "=" ++ p.2.render) b k) c.letv
  simp only [processSets]
  rw [h3 (c.set_value.foldl _ (c.set.foldl _ b)) k, h2 (c.set.foldl _ b) k, h1 b k,
    h3 (c.set_value.foldl _ (c.set.foldl _ emptyBuckets)) k, h2 (c.set.foldl _ emptyBuckets) k]
  simp [List.append_assoc]

theorem processConfig_shift (c : Config) (f : String) (b : Buckets) (k : Option String) :
    processConfig b c f k = b k ++ processConfig emptyBuckets c f k := by
  simp only [processConfig]
  rw [processSets_shift c (processAutoCommands (processKeys (processHeader b f) c.keys)
      c.auto_commands) k,
    processAutoCommands_shift c.auto_commands (processKeys (processHeader b f) c.keys) k,
    processKeys_shift c.keys (processHeader b f) k, processHeader_shift f b k,
    processSets_shift c (processAutoCommands (processKeys (processHeader emptyBuckets f)
      c.keys) c.auto_commands) k,
    processAutoCommands_shift c.auto_commands (processKeys (processHeader emptyBuckets f)
      c.keys) k,
    processKeys_shift c.keys (processHeader emptyBuckets f) k]
  simp [List.append_assoc]

/-- C8: processing two documents in order appends the first document's
contribution to every bucket strictly before the second document's; each
document's lines form one contiguous block per bucket, fully appended
before the next document begins. -/
theorem C8_document_order (b : Buckets) (c1 c2 : Config) (f1 f2 : String) (k : Option String) :
    processConfigs b [(c1, f1), (c2, f2)] k =
      b k ++ (processConfig emptyBuckets c1 f1 k ++ processConfig emptyBuckets c2 f2 k) := by
  show processConfig (processConfig b c1 f1) c2 f2 k = _
  rw [processConfig_shift c2 f2 (processConfig b c1 f1) k, processConfig_shift c1 f1 b k,
    List.append_assoc]

/-- C7: every rendered autocommand statement is appended to the global
(none) bucket, and every file-type-scoped bucket is left untouched by
the autocommand phase, whatever the file_type fields of the specs say. -/
theorem C7_autocommands_global_bucket (b : Buckets) (as : List AutoCommand) :
    processAutoCommands b as none = b none ++ (as.map renderAutoCommand).flatten ∧
      ∀ k, k ≠ none → processAutoCommands b as k = b k := by
  induction as generalizing b with
  | nil => simp [processAutoCommands]
  | cons a as ih =>
    have h' := ih (pushLines b none (renderAutoCommand a))
    constructor
    · show processAutoCommands (pushLines b none (renderAutoCommand a)) as none = _
      rw [h'.1, pushLines_apply]
      simp
    · intro k hk
      show processAutoCommands (pushLines b none (renderAutoCommand a)) as k = b k
      rw [h'.2 k hk, pushLines_apply]
      simp [hk]

/-- Witness for C7 at a concrete input: the rust bucket is untouched by
an autocommand. -/
theorem C7_autocommands_global_bucket_witness :
    processAutoCommands emptyBuckets [autoPipeEx] (some "rust") = emptyBuckets (some "rust") :=
  (C7_autocommands_global_bucket emptyBuckets [autoPipeEx]).2 (some "rust") (by decide)

theorem parseFlagChars_cons_f_label (cs : List Char) (fl : List MapFlag) (l0 : String) :
    parseFlagChars ('f' :: cs) ⟨fl, none, some l0⟩ =
      match split_once l0 with
      | some (ft, l2) => parseFlagChars cs ⟨fl, some ft, some l2⟩
      | none => parseFlagChars cs ⟨fl, some l0, none⟩ := rfl

theorem parseFlagChars_cons_f_dup (cs : List Char) (fl : List MapFlag) (v : String)
    (lb : Option String) :
    parseFlagChars ('f' :: cs) ⟨fl, some v, lb⟩ = .error .duplicateFileType := by
  cases lb <;> rfl

theorem parseFlagChars_cons_nf (c : Char) (hc : c ≠ 'f') (cs : List Char) (st : MapFlags) :
    parseFlagChars (c :: cs) st =
      match flagOf c with
      | some fl => parseFlagChars cs ⟨insertFlag st.flags fl, st.file_type, st.label⟩
      | none => .error (.unsupportedFlag c) := by
  simp [parseFlagChars, hc]

theorem parseFlagChars_preserves (cs : List Char) :
    ∀ (fl : List MapFlag) (v : String) (lb : Option String) (st' : MapFlags),
      parseFlagChars cs ⟨fl, some v, lb⟩ = .ok st' →
      st'.file_type = some v ∧ st'.label = lb := by
  induction cs with
  | nil =>
    intro fl v lb st' h
    simp only [parseFlagChars, Except.ok.injEq] at h
    subst h
    exact ⟨rfl, rfl⟩
  | cons c cs ih =>
    intro fl v lb st' h
    by_cases hc : c = 'f'
    · subst hc
      rw [parseFlagChars_cons_f_dup] at h
      exact Except.noConfusion h
    · rw [parseFlagChars_cons_nf c hc] at h
      cases hfo : flagOf c with
      | none => rw [hfo] at h; exact Except.noConfusion h
      | some fl2 =>
        rw [hfo] at h
        exact ih _ v lb st' h

theorem parseFlagChars_first_f (cs : List Char) :
    ∀ (fl : List MapFlag) (l0 : String) (st' : MapFlags),
      'f' ∈ cs →
      parseFlagChars cs ⟨fl, none, some l0⟩ = .ok st' →
      st'.file_type = some (splitFT l0) ∧ st'.label = splitLabel l0 := by
  induction cs with
  | nil =>
    intro fl l0 st' hmem _
    exact absurd hmem (List.not_mem_nil _)
  | cons c cs ih =>
    intro fl l0 st' hmem h
    by_cases hc : c = 'f'
    · subst hc
      rw [parseFlagChars_cons_f_label] at h
      cases hs : split_once l0 with
      | some p =>
        obtain ⟨ft2, l2⟩ := p
        rw [hs] at h
        have hp := parseFlagChars_preserves cs fl ft2 (some l2) st' h
        rw [hp.1, hp.2]
        simp [splitFT, splitLabel, hs]
      | none =>
        rw [hs] at h
        have hp := parseFlagChars_preserves cs fl l0 none st' h
        rw [hp.1, hp.2]
        simp [splitFT, splitLabel, hs]
    · have hmem' : 'f' ∈ cs := by
        rcases List.mem_cons.mp hmem with h1 | h1
        · exact absurd h1.symm hc
        · exact h1
      rw [parseFlagChars_cons_nf c hc] at h
      cases hfo : flagOf c with
      | none => rw [hfo] at h; exact Except.noConfusion h
      | some fl2 =>
        rw [hfo] at h
        exact ih _ l0 st' hmem' h

theorem parseFlagChars_dup (cs : List Char) :
    ∀ (fl : List MapFlag) (v : String) (lb : Option String),
      'f' ∈ cs →
      (∀ c ∈ cs, c = 'f' ∨ (flagOf c).isSome) →
      parseFlagChars cs ⟨fl, some v, lb⟩ = .error .duplicateFileType := by
  induction cs with
  | nil =>
    intro fl v lb hmem _
    exact absurd hmem (List.not_mem_nil _)
  | cons c cs ih =>
    intro fl v lb hmem hvalid
    by_cases hc : c = 'f'
    · subst hc
      exact parseFlagChars_cons_f_dup cs fl v lb
    · rw [parseFlagChars_cons_nf c hc]
      rcases hvalid c (List.mem_cons_self c cs) with h1 | h1
      · exact absurd h1 hc
      · obtain ⟨fl2, hfo⟩ := Option.isSome_iff_exists.mp h1
        rw [hfo]
        have hmem' : 'f' ∈ cs := by
          rcases List.mem_cons.mp hmem with h2 | h2
          · exact absurd h2.symm hc
          · exact h2
        exact ih _ v lb hmem' (fun c' hc' => hvalid c' (List.mem_cons_of_mem c hc'))

theorem parseFlagChars_two_f (cs : List Char) :
    ∀ (fl : List MapFlag) (l0 : String),
      2 ≤ cs.count 'f' →
      (∀ c ∈ cs, c = 'f' ∨ (flagOf c).isSome) →
      parseFlagChars cs ⟨fl, none, some l0⟩ = .error .duplicateFileType := by
  induction cs with
  | nil =>
    intro fl l0 hcount _
    simp [List.count_nil] at hcount
  | cons c cs ih =>
    intro fl l0 hcount hvalid
    have hvalid' : ∀ c' ∈ cs, c' = 'f' ∨ (flagOf c').isSome :=
      fun c' hc' => hvalid c' (List.mem_cons_of_mem c hc')
    by_cases hc : c = 'f'
    · subst hc
      have hcount' : 1 ≤ cs.count 'f' := by
        rw [List.count_cons_self] at hcount
        omega
      have hmem : 'f' ∈ cs := by
        by_contra hnm
        rw [List.count_eq_zero.mpr hnm] at hcount'
        omega
      rw [parseFlagChars_cons_f_label]
      cases hs : split_once l0 with
      | some p =>
        obtain ⟨ft2, l2⟩ := p
        exact parseFlagChars_dup cs fl ft2 (some l2) hmem hvalid'
      | none =>
        exact parseFlagChars_dup cs fl l0 none hmem hvalid'
    · have hcount' : 2 ≤ cs.count 'f' := by
        rw [List.count_cons_of_ne (fun h => hc h.symm)] at hcount
        exact hcount
      rw [parseFlagChars_cons_nf c hc]
      rcases hvalid c (List.mem_cons_self c cs) with h1 | h1
      · exact absurd h1 hc
      · obtain ⟨fl2, hfo⟩ := Option.isSome_iff_exists.mp h1
        rw [hfo]
        exact ih _ l0 hcount' hvalid'

/-- C3: whenever the flag part of a key string holds an f flag and a
label remainder exists, a successful parse splits that remainder once
more on the separator, the left part becoming the file type and the
right part the label; with no further separator the whole remainder
becomes the file type and the label is absent, as on nf_rust. -/
theorem C3_f_consumes_label_remainder :
    (∀ (s flagPart rest : String) (m : MapFlags),
      split_once s = some (flagPart, rest) →
      'f' ∈ flagPart.data.map Char.toLower →
      MapFlags.from_str s = .ok m →
      m.file_type = some (splitFT rest) ∧ m.label = splitLabel rest) ∧
    MapFlags.from_str "nf_rust" = .ok ⟨[MapFlag.Normal], some "rust", none⟩ := by
  constructor
  · intro s flagPart rest m hsplit hmem hok
    unfold MapFlags.from_str at hok
    rw [hsplit] at hok
    exact parseFlagChars_first_f (flagPart.data.map Char.toLower) [] rest m hmem hok
  · rfl

/-- Witness for C3 at a concrete input: parsing nf_rust_Comment gives
file type rust and label Comment. -/
theorem C3_f_consumes_label_remainder_witness :
    (⟨[MapFlag.Normal], some "rust", some "Comment"⟩ : MapFlags).file_type =
        some (splitFT "rust_Comment") ∧
      (⟨[MapFlag.Normal], some "rust", some "Comment"⟩ : MapFlags).label =
        splitLabel "rust_Comment" :=
  C3_f_consumes_label_remainder.1 "nf_rust_Comment" "nf" "rust_Comment"
    ⟨[MapFlag.Normal], some "rust", some "Comment"⟩ rfl (by decide) rfl

/-- C6: a second f flag after a file type has been assigned is a
duplicate-file-type parse error: whenever the label remainder exists,
the lowercased flag part holds at least two f characters, and every flag
character is supported, the parse fails with a duplicate-file-type
error; in particular on nff_x. -/
theorem C6_duplicate_filetype_error :
    (∀ (s flagPart rest : String),
      split_once s = some (flagPart, rest) →
      2 ≤ (flagPart.data.map Char.toLower).count 'f' →
      (∀ c ∈ flagPart.data.map Char.toLower, c = 'f' ∨ (flagOf c).isSome) →
      MapFlags.from_str s = .error .duplicateFileType) ∧
    MapFlags.from_str "nff_x" = .error .duplicateFileType := by
  constructor
  · intro s flagPart rest hsplit hcount hvalid
    unfold MapFlags.from_str
    rw [hsplit]
    exact parseFlagChars_two_f (flagPart.data.map Char.toLower) [] rest hcount hvalid
  · rfl

/-- Witness for C6 at a concrete input: iff_y fails with the
duplicate-file-type error. -/
theorem C6_duplicate_filetype_error_witness :
    MapFlags.from_str "iff_y" = .error .duplicateFileType :=
  C6_duplicate_filetype_error.1 "iff_y" "iff" "y" rfl (by decide) (by decide)

/-- C4: rendering a binding with flags Normal, Leader, Command and
Recursive, key k and command foo produces exactly the single line
nmap silent LEADER k CMD foo CR in the expected concrete shape. -/
theorem C4_example_binding_render :
    renderKeyBinding [MapFlag.Normal, MapFlag.Leader, MapFlag.Command, MapFlag.Recursive]
      "k" "foo" = ["nmap <silent> <LEADER>k <CMD>foo<CR>"] := by
  decide

/-- C9: a binding whose flag set holds none of Insert, Normal or Visual
renders to zero lines, for every key, command and modifier combination;
the rendering function is total, so no error can be raised. -/
theorem C9_zero_mode_flags_no_lines (flags : List MapFlag) (key binding : String)
    (hi : flags.contains MapFlag.Insert = false)
    (hn : flags.contains MapFlag.Normal = false)
    (hv : flags.contains MapFlag.Visual = false) :
    renderKeyBinding flags key binding = [] := by
  simp at hi hn hv
  simp [renderKeyBinding, hi, hn, hv]

/-- Witness for C9 at a concrete input: all three modifiers set but no
mode flag still renders nothing. -/
theorem C9_zero_mode_flags_no_lines_witness :
    renderKeyBinding [MapFlag.Leader, MapFlag.Command, MapFlag.Recursive] "a b" "x|y" = [] :=
  C9_zero_mode_flags_no_lines [MapFlag.Leader, MapFlag.Command, MapFlag.Recursive] "a b" "x|y"
    (by decide) (by decide) (by decide)

theorem autoClause_ne_empty (p : String × String) : autoClause p ≠ "" := by
  unfold autoClause
  apply append_ne_empty
  apply append_ne_empty
  apply append_ne_empty
  apply append_ne_empty
  apply append_ne_empty
  decide

theorem autoCondition_eq_empty_iff (e : List (String × String)) :
    autoCondition e = "" ↔ e = [] := by
  cases e with
  | nil => simp [autoCondition, joinSep]
  | cons p rest =>
    constructor
    · intro h
      exfalso
      cases rest with
      | nil => exact autoClause_ne_empty p (by simpa [autoCondition, joinSep] using h)
      | cons q rest' =>
        have h2 : autoClause p ++ " && " ++
            joinSep " && " (autoClause q :: rest'.map autoClause) = "" := by
          simpa [autoCondition, joinSep] using h
        exact append_ne_empty _ _ (append_ne_empty _ _ (autoClause_ne_empty p)) h2
    · intro h
      exact List.noConfusion h

theorem backslash_beq_quote : ('\\' == quoteChar) = false := by decide

theorem quote_beq_quote : (quoteChar == quoteChar) = true := by decide

theorem backslash_beq_backslash : (('\\' : Char) == '\\') = true := by decide

theorem quotesOkAux_escape (l : List Char) : ∀ p, quotesOkAux p (escapeQuotesL l) = true := by
  induction l with
  | nil => intro p; rfl
  | cons c l ih =>
    intro p
    by_cases hc : c = quoteChar
    · subst hc
      simp [escapeQuotesL, quotesOkAux, ih, backslash_beq_quote, quote_beq_quote,
        backslash_beq_backslash]
    · simp [escapeQuotesL, hc, quotesOkAux, ih]

theorem quotesOk_escape (l : List Char) : quotesOk (escapeQuotesL l) = true := by
  cases l with
  | nil => rfl
  | cons c l =>
    by_cases hc : c = quoteChar
    · subst hc
      simp [escapeQuotesL, quotesOk, quotesOkAux, quotesOkAux_escape l, backslash_beq_quote,
        quote_beq_quote, backslash_beq_backslash]
    · simp [escapeQuotesL, hc, quotesOk, quotesOkAux_escape l]

/-- C5: an autocommand with an empty event map renders each statement as
an unconditional autocmd line, and with a non-empty event map as the
conditional execute-wrapped line; the escaping applied there puts a
backslash before every single quote of the statement. -/
theorem C5_autocommand_forms :
    (∀ a : AutoCommand,
      renderAutoCommand a = (autoStatements a).map (fun stmt =>
        if a.event = [] then
          "autocmd " ++ joinSep "," a.triggers ++ " " ++ autoMatching a ++ " " ++
            autoSilent a.silent ++ " " ++ stmt
        else
          "autocmd " ++ joinSep "," a.triggers ++ " " ++ autoMatching a ++ " " ++
            autoSilent a.silent ++ " if " ++ autoCondition a.event ++ " | execute " ++ sq ++
            escapeQuotes stmt ++ sq ++ " | endif")) ∧
    (∀ l : List Char, quotesOk (escapeQuotesL l) = true) := by
  constructor
  · intro a
    unfold renderAutoCommand
    apply congrArg (fun f => List.map f (autoStatements a))
    funext stmt
    simp only [autoCondition_eq_empty_iff]
  · exact quotesOk_escape

/-- C10: in the conditional autocommand form the event value is
interpolated verbatim between bare quotes, while only the executed
statement is quote-escaped; the clause's character sequence embeds the
value's characters unchanged. -/
theorem C10_event_value_verbatim (trig k v stmt : String) (sil : Bool) (mo fto : Option String) :
    renderAutoCommand ⟨[trig], [stmt], [], mo, [(k, v)], sil, fto⟩ =
      ["autocmd " ++ trig ++ " " ++ mo.getD (if fto.isSome then "<buffer>" else "*") ++ " " ++
        autoSilent sil ++ " if " ++ autoClause (k, v) ++ " | execute " ++ sq ++
        escapeQuotes stmt ++ sq ++ " | endif"] ∧
    (autoClause (k, v)).data =
      "v:event.".data ++ k.data ++ " is ".data ++ [quoteChar] ++ v.data ++ [quoteChar] := by
  constructor
  · have hne : autoClause (k, v) ≠ "" := autoClause_ne_empty (k, v)
    simp [renderAutoCommand, autoStatements, autoCondition, autoMatching, joinSep, hne]
  · rfl

theorem pipesOkAux_append (l1 l2 : List Char) : ∀ p,
    pipesOkAux p (l1 ++ l2) = (pipesOkAux p l1 && pipesOkAux (l1.getLastD p) l2) := by
  induction l1 with
  | nil => intro p; simp [pipesOkAux, List.getLastD]
  | cons c l1 ih =>
    intro p
    show ((!(c == '|') || (p == '\\')) && pipesOkAux c (l1 ++ l2)) =
      (((!(c == '|') || (p == '\\')) && pipesOkAux c l1) && pipesOkAux ((c :: l1).getLastD p) l2)
    rw [ih c, List.getLastD_cons, Bool.and_assoc]

theorem pipesOkAux_all_append {l1 l2 : List Char} (h1 : ∀ p, pipesOkAux p l1 = true)
    (h2 : ∀ p, pipesOkAux p l2 = true) : ∀ p, pipesOkAux p (l1 ++ l2) = true := by
  intro p
  rw [pipesOkAux_append l1 l2 p, h1 p, h2 (l1.getLastD p)]
  rfl

theorem pipesOkAux_no_pipe {l : List Char} (h : '|' ∉ l) : ∀ p, pipesOkAux p l = true := by
  induction l with
  | nil => intro p; rfl
  | cons c l ih =>
    intro p
    have hc : c ≠ '|' := fun hcc => h (List.mem_cons.mpr (Or.inl hcc.symm))
    simp [pipesOkAux, hc, ih (fun hm => h (List.mem_cons_of_mem c hm))]

theorem pipesOkAux_escape (l : List Char) : ∀ p, pipesOkAux p (escapePipesL l) = true := by
  induction l with
  | nil => intro p; rfl
  | cons c l ih =>
    intro p
    by_cases hc : c = '|'
    · subst hc
      simp [escapePipesL, pipesOkAux, ih]
    · simp [escapePipesL, hc, pipesOkAux, ih]

theorem renderKeyBinding_mem (flags : List MapFlag) (key binding line : String)
    (hmem : line ∈ renderKeyBinding flags key binding) :
    ∃ m : Char,
      (m = 'i' ∨ m = 'n' ∨ m = 'v') ∧
      line.data = m ::
        ((if flags.contains MapFlag.Recursive then "map" else "noremap") ++ " <silent> " ++
          collapseWhitespace (if flags.contains MapFlag.Leader then "<LEADER>" ++ key else key) ++
          " " ++
          (if flags.contains MapFlag.Command then "<CMD>" ++ escapePipes binding ++ "<CR>"
            else escapePipes binding)).data := by
  unfold renderKeyBinding at hmem
  rcases List.mem_append.mp hmem with h | h
  · by_cases hi : flags.contains MapFlag.Insert = true
    · rw [if_pos hi] at h
      obtain rfl := List.mem_singleton.mp h
      exact ⟨'i', Or.inl rfl, rfl⟩
    · rw [if_neg hi] at h
      exact absurd h (List.not_mem_nil _)
  · rcases List.mem_append.mp h with h | h
    · by_cases hn : flags.contains MapFlag.Normal = true
      · rw [if_pos hn] at h
        obtain rfl := List.mem_singleton.mp h
        exact ⟨'n', Or.inr (Or.inl rfl), rfl⟩
      · rw [if_neg hn] at h
        exact absurd h (List.not_mem_nil _)
    · by_cases hv : flags.contains MapFlag.Visual = true
      · rw [if_pos hv] at h
        obtain rfl := List.mem_singleton.mp h
        exact ⟨'v', Or.inr (Or.inr rfl), rfl⟩
      · rw [if_neg hv] at h
        exact absurd h (List.not_mem_nil _)

/-- C1 as amended: on key-binding lines the command text is embedded in
pipe-escaped form, so every line rendered from a pipe-free key has every
pipe immediately preceded by a backslash; autocommand statement lines
are not pipe-escaped (see the counterexample). -/
theorem C1_keybinding_pipes_escaped (flags : List MapFlag) (key binding line : String)
    (hkey : '|' ∉ key.data) (hmem : line ∈ renderKeyBinding flags key binding) :
    pipesOk line.data = true := by
  obtain ⟨m, hm, hdata⟩ := renderKeyBinding_mem flags key binding line hmem
  have hcmd : ∀ p, pipesOkAux p
      ((if flags.contains MapFlag.Recursive then "map" else "noremap") : String).data = true := by
    by_cases hr : flags.contains MapFlag.Recursive = true
    · simp only [if_pos hr]
      exact pipesOkAux_no_pipe (by decide)
    · simp only [if_neg hr]
      exact pipesOkAux_no_pipe (by decide)
  have hkey2 : '|' ∉
      (collapseWhitespace (if flags.contains MapFlag.Leader then "<LEADER>" ++ key else key)).data := by
    intro hm'
    have hm2 := List.mem_of_mem_filter hm'
    by_cases hl : flags.contains MapFlag.Leader = true
    · rw [if_pos hl, data_append] at hm2
      rcases List.mem_append.mp hm2 with h' | h'
      · exact absurd h' (by decide)
      · exact hkey h'
    · rw [if_neg hl] at hm2
      exact hkey hm2
  have hb3 : ∀ p, pipesOkAux p
      ((if flags.contains MapFlag.Command then "<CMD>" ++ escapePipes binding ++ "<CR>"
        else escapePipes binding) : String).data = true := by
    by_cases hc : flags.contains MapFlag.Command = true
    · simp only [if_pos hc]
      exact pipesOkAux_all_append
        (pipesOkAux_all_append (pipesOkAux_no_pipe (by decide)) (pipesOkAux_escape binding.data))
        (pipesOkAux_no_pipe (by decide))
    · simp only [if_neg hc]
      exact pipesOkAux_escape binding.data
  have hbody : ∀ p, pipesOkAux p
      (((if flags.contains MapFlag.Recursive then "map" else "noremap") ++ " <silent> " ++
        collapseWhitespace (if flags.contains MapFlag.Leader then "<LEADER>" ++ key else key) ++
        " " ++
        (if flags.contains MapFlag.Command then "<CMD>" ++ escapePipes binding ++ "<CR>"
          else escapePipes binding)) : String).data = true :=
    pipesOkAux_all_append
      (pipesOkAux_all_append
        (pipesOkAux_all_append (pipesOkAux_all_append hcmd (pipesOkAux_no_pipe (by decide)))
          (pipesOkAux_no_pipe hkey2))
        (pipesOkAux_no_pipe (by decide)))
      hb3
  rw [hdata]
  rcases hm with rfl | rfl | rfl <;> simp only [pipesOk, hbody] <;> decide

/-- C1 counterexample: an autocommand statement whose command text holds
a literal pipe is rendered with that pipe unescaped, refuting the claim
for autocommand statement lines. -/
theorem C1_counterexample :
    autoPipeEx.cmd = ["a|b"] ∧
      renderAutoCommand autoPipeEx = ["autocmd BufWrite *  a|b"] ∧
      pipesOk ("autocmd BufWrite *  a|b" : String).data = false := by
  refine ⟨rfl, rfl, ?_⟩
  decide

/-- Witness for the amended C1 at a concrete input: the line rendered
from command text holding a pipe carries it escaped. -/
theorem C1_keybinding_pipes_escaped_witness :
    pipesOk ("nnoremap <silent> k a\\|b" : String).data = true :=
  C1_keybinding_pipes_escaped [MapFlag.Normal] "k" "a|b" "nnoremap <silent> k a\\|b"
    (by decide) (by decide)

/-- C2 as amended: the emitted bytes are a function of the documents
together with the enumeration order of their hash maps; two
enumerations of the same event map always give the same multiset of
condition clauses, and give the identical joined condition whenever the
event map holds at most one entry. -/
theorem C2_enumeration_relative_determinism (e1 e2 : List (String × String))
    (hperm : e1.Perm e2) :
    (e1.map autoClause).Perm (e2.map autoClause) ∧
      (e1.length ≤ 1 → autoCondition e1 = autoCondition e2) := by
  constructor
  · exact hperm.map autoClause
  · intro hlen
    have he : e1 = e2 := by
      cases e1 with
      | nil => exact hperm.nil_eq
      | cons x l =>
        cases l with
        | nil => exact List.singleton_perm.mp hperm
        | cons y l' => simp at hlen
    rw [he]

/-- C2 counterexample: the same two-entry event map enumerated in two
orders renders an otherwise identical autocommand to different bytes, so
re-running the pipeline is not guaranteed to reproduce byte-identical
output. -/
theorem C2_counterexample :
    autoEvEx1.event.Perm autoEvEx2.event ∧
      autoEvEx1.triggers = autoEvEx2.triggers ∧ autoEvEx1.cmd = autoEvEx2.cmd ∧
      autoEvEx1.lua = autoEvEx2.lua ∧ autoEvEx1.matching = autoEvEx2.matching ∧
      autoEvEx1.silent = autoEvEx2.silent ∧ autoEvEx1.file_type = autoEvEx2.file_type ∧
      renderAutoCommand autoEvEx1 ≠ renderAutoCommand autoEvEx2 := by
  refine ⟨List.Perm.swap ("b", "2") ("a", "1") [], rfl, rfl, rfl, rfl, rfl, rfl, ?_⟩
  decide

/-- Witness for the amended C2 at a concrete input. -/
theorem C2_enumeration_relative_determinism_witness :
    (([("a", "1"), ("b", "2")] : List (String × String)).map autoClause).Perm
        (([("b", "2"), ("a", "1")] : List (String × String)).map autoClause) ∧
      (([("a", "1"), ("b", "2")] : List (String × String)).length ≤ 1 →
        autoCondition [("a", "1"), ("b", "2")] = autoCondition [("b", "2"), ("a", "1")]) :=
  C2_enumeration_relative_determinism [("a", "1"), ("b", "2")] [("b", "2"), ("a", "1")]
    (List.Perm.swap ("b", "2") ("a", "1") [])

end NvimConfig
